import Mathlib

/-
  Verification development for the github-user-batch-finder repository.

  The embedding below translates the JavaScript sources into Lean:

  * `js/config.js` (src/unnamed/part_003)     → the CONFIG constants
  * `js/utils/validator.js`                   → `InputValidator.validateUsername`
  * `js/services/github-api.js`               → `GitHubApi.fetchUser`,
                                                `GitHubApi.fetchUserWithRetry`
  * `js/services/batch-processor.js`          → `Batch.createChunks`,
                                                `Batch.processChunk`, `Batch.updateStats`,
                                                `Batch.reportProgress`, `Batch.execute`,
                                                `Proc.processUsersCall`, `Proc.cancel`
  * the bundled page build (src/unnamed/part_000) → `Bundled.fetchUser`
    (the caching single-lookup client of the bundled GitHubApiService)

  Environment interaction (HTTP responses, promise settlement, the moment at
  which `cancel()` flips the `cancelled` flag) is passed in as explicit oracle
  parameters; everything else is translated statement by statement from the
  source.  Real-time aspects (Date.now timestamps, setTimeout durations) are
  recorded as data (delay events / wait lists) rather than as wall-clock time.
-/

namespace GithubBatch

/-! ## Configuration (js/config.js, src/unnamed/part_003) -/

def RETRY_DELAY : Nat := 5000
def MAX_RETRIES : Nat := 3
def CHUNK_SIZE : Nat := 8
def DELAY_BETWEEN_CHUNKS : Nat := 1000
def MIN_LENGTH : Nat := 1
def MAX_LENGTH : Nat := 39
def USER_NOT_FOUND_MSG : String := "User \"{username}\" not found"
def API_ERROR_MSG : String := "GitHub API error. Please try again later."
def NETWORK_ERROR_MSG : String := "Network error. Please check your connection and try again."

/-! ## Data model -/

/-- The `errorType` strings used by the services. -/
inductive ErrorType where
  | NOT_FOUND
  | RATE_LIMITED
  | NETWORK_ERROR
  | API_ERROR
  | PROCESSING_ERROR
deriving DecidableEq, Repr

/-- The duck-typed result object produced by `GitHubApiService.fetchUser` and
consumed by the batch processor.  Fields that a given JS result object does not
carry are `none`. -/
structure FetchResult where
  success : Bool
  username : String
  data : Option String := none
  error : Option String := none
  errorType : Option ErrorType := none
  retryAfter : Option Nat := none
deriving DecidableEq, Repr

/-- JS `a || b` on an optional number: `0`, `null` and `undefined` are falsy. -/
def jsOrNat (v : Option Nat) (d : Nat) : Nat :=
  match v with
  | some n => if n = 0 then d else n
  | none => d

/-- JS `String.prototype.trim`: strip leading and trailing whitespace. -/
def jsTrim (s : String) : String :=
  String.mk (((s.data.dropWhile Char.isWhitespace).reverse.dropWhile
    Char.isWhitespace).reverse)

/-- JS `String.prototype.toLowerCase` on the ASCII range (usernames are
ASCII): map each upper-case letter to its lower-case form. -/
def toLowerChar (c : Char) : Char :=
  if 65 ≤ c.toNat ∧ c.toNat ≤ 90 then Char.ofNat (c.toNat + 32) else c

def jsToLower (s : String) : String :=
  String.mk (s.data.map toLowerChar)

/-! ## Remote lookup client (js/services/github-api.js) -/

namespace GitHubApi

/-- The environment's answer to one `fetch` call inside `fetchUser`.
`response status retryDelayNow body`: an HTTP response with the given status;
`retryDelayNow` is the value `_calculateRetryDelay()` returns at that moment
(it reads the mutable `rateLimitInfo` and the clock, both environmental);
`body = none` means `response.json()` threw.  `exception` is a thrown
network/transport error. -/
inductive HttpOutcome where
  | response (status : Nat) (retryDelayNow : Nat) (body : Option String)
  | exception
deriving DecidableEq, Repr

/-- `GitHubApiService.fetchUser` (github-api.js lines 26-87): maps the HTTP
outcome to a result object.  `response.ok` is status 200-299; 404 gives
NOT_FOUND, 403 gives RATE_LIMITED with `retryAfter`, any other non-2xx gives
API_ERROR, and every thrown error (fetch or json parse) is caught and turned
into a NETWORK_ERROR failure. -/
def fetchUser (username : String) (o : HttpOutcome) : FetchResult :=
  match o with
  | HttpOutcome.response status retryDelayNow body =>
    if 200 ≤ status ∧ status ≤ 299 then
      match body with
      | some payload => { success := true, data := some payload, username := username }
      | none =>
          { success := false, error := some NETWORK_ERROR_MSG,
            errorType := some ErrorType.NETWORK_ERROR, username := username }
    else if status = 404 then
      { success := false,
        error := some (USER_NOT_FOUND_MSG.replace "{username}" username),
        errorType := some ErrorType.NOT_FOUND, username := username }
    else if status = 403 then
      { success := false, error := some "Rate limit exceeded",
        errorType := some ErrorType.RATE_LIMITED, username := username,
        retryAfter := some retryDelayNow }
    else
      { success := false, error := some API_ERROR_MSG,
        errorType := some ErrorType.API_ERROR, username := username }
  | HttpOutcome.exception =>
      { success := false, error := some NETWORK_ERROR_MSG,
        errorType := some ErrorType.NETWORK_ERROR, username := username }

/-- Outcome of a `fetchUserWithRetry` run: the returned value (`none` is the
JS `null` that is returned when the loop body never runs), the number of
`fetchUser` calls made, and the waits performed between attempts. -/
structure RetryRun where
  result : Option FetchResult
  attempts : Nat
  waits : List Nat
deriving DecidableEq, Repr

/-- The retry loop of `fetchUserWithRetry` (github-api.js lines 95-137).
`fetchAt n` is the result of the n-th `fetchUser` call (attempts are numbered
from 1, as in the JS `for` loop).  `remaining` is the number of loop
iterations still allowed, i.e. `maxRetries + 1 - attempt`; it only drives
structural termination, all tests are on `attempt` exactly as in the source. -/
def retryGo (fetchAt : Nat → FetchResult) (maxRetries : Nat) :
    Nat → Nat → Option FetchResult → RetryRun
  | 0, attempt, lastError => { result := lastError, attempts := attempt - 1, waits := [] }
  | remaining + 1, attempt, lastError =>
    let result := fetchAt attempt
    if result.success then
      { result := some result, attempts := attempt, waits := [] }
    else
      let last := some result
      if result.errorType = some ErrorType.NOT_FOUND ∨
         result.errorType = some ErrorType.API_ERROR then
        { result := last, attempts := attempt, waits := [] }
      else if result.errorType = some ErrorType.RATE_LIMITED then
        if attempt < maxRetries then
          let d := jsOrNat result.retryAfter RETRY_DELAY
          let rest := retryGo fetchAt maxRetries remaining (attempt + 1) last
          { result := rest.result, attempts := rest.attempts, waits := d :: rest.waits }
        else
          { result := last, attempts := attempt, waits := [] }
      else if result.errorType = some ErrorType.NETWORK_ERROR ∧ attempt < maxRetries then
        let d := 2 ^ attempt * 1000
        let rest := retryGo fetchAt maxRetries remaining (attempt + 1) last
        { result := rest.result, attempts := rest.attempts, waits := d :: rest.waits }
      else
        { result := last, attempts := attempt, waits := [] }

/-- `GitHubApiService.fetchUserWithRetry(username, maxRetries)`: run the loop
for attempts 1..maxRetries.  The JS loop executes at most `maxRetries`
iterations, so the fuel is `maxRetries`. -/
def fetchUserWithRetry (fetchAt : Nat → FetchResult) (maxRetries : Nat) : RetryRun :=
  retryGo fetchAt maxRetries maxRetries 1 none

end GitHubApi

/-! ## Batch orchestrator (js/services/batch-processor.js) -/

namespace Batch

/-- The mutable counters of `BatchOperation.stats` (startTime/endTime are
wall-clock timestamps and carry no logical content, so they are not modelled). -/
structure Stats where
  processed : Nat
  successful : Nat
  failed : Nat
  rateLimitHits : Nat
deriving DecidableEq, Repr

def initialStats : Stats :=
  { processed := 0, successful := 0, failed := 0, rateLimitHits := 0 }

/-- `BatchOperation._updateStats` (batch-processor.js lines 293-300). -/
def updateStats (s : Stats) (r : FetchResult) : Stats :=
  if r.success then
    { s with processed := s.processed + 1, successful := s.successful + 1 }
  else
    { s with processed := s.processed + 1, failed := s.failed + 1 }

/-- The snapshot object built by `BatchOperation._reportProgress`. -/
structure Progress where
  processed : Nat
  total : Nat
  currentChunk : Nat
  totalChunks : Nat
  rateLimitHits : Nat
  successful : Nat
  failed : Nat
  isComplete : Bool
  cancelled : Bool
deriving DecidableEq, Repr

/-- `BatchOperation._reportProgress` (batch-processor.js lines 272-286);
`cancelled` is the value of `this.cancelled` read at that moment. -/
def reportProgress (stats : Stats) (total totalChunks currentChunk : Nat)
    (isComplete cancelled : Bool) : Progress :=
  { processed := stats.processed, total := total,
    currentChunk := currentChunk + 1, totalChunks := totalChunks,
    rateLimitHits := stats.rateLimitHits, successful := stats.successful,
    failed := stats.failed, isComplete := isComplete, cancelled := cancelled }

/-- One observable step of a batch run: a call to `onProgress`, a call to
`onResult`, or an inter-chunk `setTimeout` wait. -/
inductive Event where
  | progressEv (p : Progress)
  | resultEv (r : FetchResult)
  | delayEv (ms : Nat)
deriving DecidableEq, Repr

/-- `BatchOperation._createChunks` (batch-processor.js lines 257-263): slice the
username list into pieces of `size`.  The JS `for` loop advances `i` by `size`
each pass, so for `size ≥ 1` it runs at most `usernames.length` iterations;
`fuel` is that bound (for `size = 0` the JS loop never terminates). -/
def createChunksAux (size : Nat) : Nat → List String → List (List String)
  | 0, _ => []
  | _, [] => []
  | fuel + 1, l => l.take size :: createChunksAux size fuel (l.drop size)

def createChunks (usernames : List String) (size : Nat) : List (List String) :=
  createChunksAux size usernames.length usernames

/-- `Promise.all(chunk.map(u => fetchUserWithRetry(u)))` settles to one result
per chunk element, in chunk order; `f` gives the settled value for the element
at each position. -/
def mapWithIndex (f : Nat → String → FetchResult) : Nat → List String → List FetchResult
  | _, [] => []
  | i, u :: rest => f i u :: mapWithIndex f (i + 1) rest

/-- The rate-limit test used in `_processChunk`: `r.errorType === 'RATE_LIMITED'`. -/
def isRateLimited (r : FetchResult) : Bool :=
  r.errorType == some ErrorType.RATE_LIMITED

/-- `BatchOperation._processChunk` (batch-processor.js lines 223-249).
`fetchFor i u` is the settled value of `apiService.fetchUserWithRetry(u)` for
chunk position `i`; `threw = true` is the case where the concurrent fan-out
itself rejects, which `_processChunk` rethrows (`none`).  On success it bumps
`stats.rateLimitHits` once when any result of the chunk is RATE_LIMITED. -/
def processChunk (fetchFor : Nat → String → FetchResult) (chunk : List String)
    (stats : Stats) (threw : Bool) : Option (List FetchResult × Stats) :=
  if threw then none
  else
    let results := mapWithIndex fetchFor 0 chunk
    let rateLimited := results.filter isRateLimited
    let stats1 :=
      if 0 < rateLimited.length then
        { stats with rateLimitHits := stats.rateLimitHits + 1 }
      else stats
    some (results, stats1)

/-- The error result synthesized for each chunk element when the whole chunk
fails (batch-processor.js lines 181-186). -/
def mkProcessingError (username : String) : FetchResult :=
  { success := false, username := username,
    error := some "Chunk processing failed",
    errorType := some ErrorType.PROCESSING_ERROR }

/-- The chunk loop of `BatchOperation.execute` (batch-processor.js lines
147-194).  Oracles: `api j i u` is the settled value of
`fetchUserWithRetry(u)` at position `i` of chunk `j`; `chunkThrew j` says
whether chunk `j`'s fan-out rejected as a whole; `cancelTop j` is the value of
`this.cancelled` at the loop-top check for chunk `j`, and `cancelPost j` its
value at the `!this.cancelled` read guarding the inter-chunk delay (both reads
are separate suspension points, so they are separate oracle entries).
Returns the emitted event trace and the final stats. -/
def executeLoop (api : Nat → Nat → String → FetchResult) (chunkThrew : Nat → Bool)
    (cancelTop cancelPost : Nat → Bool) (total totalChunks delayMs : Nat) :
    List (List String) → Nat → Stats → List Event × Stats
  | [], _, stats => ([], stats)
  | chunk :: rest, chunkIndex, stats =>
    if cancelTop chunkIndex then ([], stats)
    else
      let progressEvent :=
        Event.progressEv (reportProgress stats total totalChunks chunkIndex false false)
      match processChunk (fun i u => api chunkIndex i u) chunk stats (chunkThrew chunkIndex) with
      | some (chunkResults, stats1) =>
        let stats2 := chunkResults.foldl updateStats stats1
        let delayEvents :=
          if chunkIndex < totalChunks - 1 ∧ cancelPost chunkIndex = false then
            [Event.delayEv delayMs]
          else []
        let next := executeLoop api chunkThrew cancelTop cancelPost total totalChunks delayMs
          rest (chunkIndex + 1) stats2
        (progressEvent :: chunkResults.map Event.resultEv ++ delayEvents ++ next.1, next.2)
      | none =>
        let errorResults := chunk.map mkProcessingError
        let stats2 := errorResults.foldl updateStats stats
        let next := executeLoop api chunkThrew cancelTop cancelPost total totalChunks delayMs
          rest (chunkIndex + 1) stats2
        (progressEvent :: errorResults.map Event.resultEv ++ next.1, next.2)

/-- `BatchOperation.execute` (batch-processor.js lines 137-207): run the chunk
loop and then emit the final progress snapshot with `isComplete = true`;
`cancelFinal` is the value of `this.cancelled` at that final report. -/
def execute (api : Nat → Nat → String → FetchResult) (chunkThrew : Nat → Bool)
    (cancelTop cancelPost : Nat → Bool) (cancelFinal : Bool)
    (usernames : List String) (chunkSize delayMs : Nat) : List Event × Stats :=
  let chunks := createChunks usernames chunkSize
  let run := executeLoop api chunkThrew cancelTop cancelPost
    usernames.length chunks.length delayMs chunks 0 initialStats
  (run.1 ++
    [Event.progressEv
      (reportProgress run.2 usernames.length chunks.length chunks.length true cancelFinal)],
   run.2)

/-! ### Trace observations -/

/-- The arguments of the `onResult` calls in a trace, in order. -/
def resultsIn (t : List Event) : List FetchResult :=
  t.filterMap fun e =>
    match e with
    | Event.resultEv r => some r
    | _ => none

/-- The arguments of the `onProgress` calls in a trace, in order. -/
def progressIn (t : List Event) : List Progress :=
  t.filterMap fun e =>
    match e with
    | Event.progressEv p => some p
    | _ => none

/-- The events that happen strictly before the n-th (0-based) `onProgress`
call of a trace. -/
def beforeNthProgress : List Event → Nat → List Event
  | [], _ => []
  | Event.progressEv _ :: _, 0 => []
  | Event.progressEv p :: rest, n + 1 => Event.progressEv p :: beforeNthProgress rest n
  | e :: rest, n => e :: beforeNthProgress rest n

/-- Summary of what chunk `j` contributes to the result stream: the settled
fan-out results, or one synthesized PROCESSING_ERROR per element if the chunk
threw. -/
def chunkResultsAt (api : Nat → Nat → String → FetchResult) (chunkThrew : Nat → Bool)
    (j : Nat) (chunk : List String) : List FetchResult :=
  if chunkThrew j then chunk.map mkProcessingError
  else mapWithIndex (fun i u => api j i u) 0 chunk

/-- The per-chunk result lists of a whole chunk sequence starting at index `i`. -/
def allChunkResults (api : Nat → Nat → String → FetchResult) (chunkThrew : Nat → Bool) :
    List (List String) → Nat → List (List FetchResult)
  | [], _ => []
  | c :: rest, i => chunkResultsAt api chunkThrew i c :: allChunkResults api chunkThrew rest (i + 1)

end Batch

/-! ## Input validator (js/utils/validator.js + the CONFIG pattern) -/

namespace InputValidator

/-- ASCII letter or digit, i.e. the character class `[a-zA-Z0-9]`. -/
def isAsciiAlphanumeric (c : Char) : Bool :=
  decide ((97 ≤ c.toNat ∧ c.toNat ≤ 122) ∨
          (65 ≤ c.toNat ∧ c.toNat ≤ 90) ∨
          (48 ≤ c.toNat ∧ c.toNat ≤ 57))

/-- `CONFIG.VALIDATION.USERNAME.PATTERN` (config.js lines 36-43):
the anchored regex `^[a-zA-Z0-9]([a-zA-Z0-9-]){0,38}$` — one leading
alphanumeric character followed by up to 38 characters that are each
alphanumeric or a hyphen (a trailing hyphen is allowed by this regex). -/
def patternTest (s : List Char) : Bool :=
  match s with
  | [] => false
  | c :: rest =>
    isAsciiAlphanumeric c && decide (rest.length ≤ 38) &&
      rest.all fun d => isAsciiAlphanumeric d || d == '-'

/-- `InputValidator.validateUsername` (validator.js lines 17-28): reject a
falsy/non-string input, trim, then check MIN_LENGTH, MAX_LENGTH and the CONFIG
pattern. -/
def validateUsername (username : String) : Bool :=
  if username = "" then false
  else
    let trimmed := jsTrim username
    decide (MIN_LENGTH ≤ trimmed.length) && decide (trimmed.length ≤ MAX_LENGTH) &&
      patternTest trimmed.data

/-- Modelled from the spec: the pattern the spec claims the validator uses,
`^[A-Za-z0-9]([A-Za-z0-9-]*[A-Za-z0-9])?$` — alphanumeric start AND end,
hyphens only internally.  This definition exists only to compare the spec's
stated rule against the code's actual `patternTest`. -/
def specPatternTest (s : List Char) : Bool :=
  match s with
  | [] => false
  | c :: rest =>
    isAsciiAlphanumeric c &&
      match rest.getLast? with
      | none => true
      | some lastc =>
        isAsciiAlphanumeric lastc &&
          rest.dropLast.all fun d => isAsciiAlphanumeric d || d == '-'

/-- Modelled from the spec: `validate` as the claim states it — trimmed string
non-empty, at most 39 characters, and matching the spec's pattern. -/
def specValidate (username : String) : Bool :=
  let t := jsTrim username
  !(t = "") && decide (t.length ≤ 39) && specPatternTest t.data

end InputValidator

/-! ## Bundled caching lookup client (src/unnamed/part_000, lines 135-209) -/

namespace Bundled

/-- The result object of the bundled `GitHubApiService.fetchUser`: a success
carries only `data`, a failure carries `username` and `error`. -/
structure ResultB where
  success : Bool
  data : Option String := none
  username : Option String := none
  error : Option String := none
deriving DecidableEq, Repr

/-- Outcome of `response.json()`: the parsed payload, or a thrown parse error
with its message. -/
inductive JsonBody where
  | parsed (payload : String)
  | threw (errMsg : String)
deriving DecidableEq, Repr

/-- The environment's answer to the bundled client's `fetch` call.
`response status statusText body`: an HTTP response; `exception m` is a
thrown network error with message `m`. -/
inductive HttpOutcomeB where
  | response (status : Nat) (statusText : String) (body : JsonBody)
  | exception (errMsg : String)
deriving DecidableEq, Repr

/-- JS `error.message || 'Failed to fetch user data'`: an empty message is
falsy and replaced by the default. -/
def jsOrStr (s d : String) : String :=
  if s = "" then d else s

/-- The message of the Error thrown on a 403 by the bundled client; it depends
on whether `CONFIG.API.GITHUB_TOKEN` is set. -/
def rateLimitMsg (tokenSet : Bool) : String :=
  "Rate limit exceeded. " ++
    (if tokenSet then "Token may be invalid or expired."
     else "Consider adding a GitHub token for higher limits.")

/-- A failure result as built in the bundled client's `catch` block. -/
def errResult (username msg : String) : ResultB :=
  { success := false, username := some username, error := some msg }

/-- `this.cache.set(key, v)` on a cache represented as an association list:
any previous binding of `key` is replaced. -/
def cacheSet (cache : List (String × ResultB)) (key : String) (v : ResultB) :
    List (String × ResultB) :=
  (key, v) :: cache.filter fun p => !(p.1 == key)

/-- The bundled `GitHubApiService.fetchUser` (src/unnamed/part_000 lines
146-192): cache key is the lowercased username; a cache hit returns the cached
result without a network call; a 2xx response with parsable JSON is wrapped as
a success and cached; every other path (non-ok status, parse error, network
exception) is caught and returned as an uncached failure.  The third component
records whether a network call was issued. -/
def fetchUser (tokenSet : Bool) (cache : List (String × ResultB)) (username : String)
    (o : HttpOutcomeB) : ResultB × List (String × ResultB) × Bool :=
  let cacheKey := jsToLower username
  match cache.lookup cacheKey with
  | some cached => (cached, cache, false)
  | none =>
    match o with
    | HttpOutcomeB.response status statusText body =>
      if 200 ≤ status ∧ status ≤ 299 then
        match body with
        | JsonBody.parsed payload =>
          let result : ResultB := { success := true, data := some payload }
          (result, cacheSet cache cacheKey result, true)
        | JsonBody.threw m =>
          (errResult username (jsOrStr m "Failed to fetch user data"), cache, true)
      else
        let msg :=
          if status = 403 then rateLimitMsg tokenSet
          else "HTTP " ++ toString status ++ ": " ++ statusText
        (errResult username msg, cache, true)
    | HttpOutcomeB.exception m =>
      (errResult username (jsOrStr m "Failed to fetch user data"), cache, true)

end Bundled

/-! ## Processor lifecycle flags (batch-processor.js lines 29-106) -/

namespace Proc

/-- The lifecycle flags of a `BatchProcessor` instance: `isProcessing` and
whether `currentOperation` is non-null. -/
structure ProcState where
  isProcessing : Bool
  hasCurrentOperation : Bool
deriving DecidableEq, Repr

/-- One call to `BatchProcessor.processUsers` (lines 29-70), viewed at its
suspension-free entry and exit: if the guard trips, it throws and changes no
flag; otherwise it sets the flags, runs the operation (`bodyThrew` says
whether `execute` or a callback threw), and the `finally` block clears
`isProcessing` and `currentOperation` on both the return and the throw path.
Returns the call's outcome and the instance's flags after the call. -/
def processUsersCall (s : ProcState) (bodyThrew : Bool) :
    Except String Unit × ProcState :=
  if s.isProcessing then
    (Except.error "Batch processor is already running", s)
  else
    let finalState : ProcState := { isProcessing := false, hasCurrentOperation := false }
    ((if bodyThrew then Except.error "body threw" else Except.ok ()), finalState)

/-- `BatchProcessor.cancel` (lines 75-81): when an operation exists, set its
cancelled flag (observed by the running operation through the `cancelTop` /
`cancelPost` oracles) and clear `isProcessing` immediately; `currentOperation`
is left in place. -/
def cancel (s : ProcState) : ProcState :=
  if s.hasCurrentOperation then { s with isProcessing := false } else s

/-- `BatchProcessor.isRunning` (lines 104-106). -/
def isRunning (s : ProcState) : Bool :=
  s.isProcessing

end Proc

/-! ## Helper lemmas -/

lemma lookup_cacheSet (cache : List (String × Bundled.ResultB)) (k : String)
    (v : Bundled.ResultB) : (Bundled.cacheSet cache k v).lookup k = some v := by
  simp [Bundled.cacheSet, List.lookup]

lemma fetchUser_success_errorType (u : String) (o : GitHubApi.HttpOutcome)
    (h : (GitHubApi.fetchUser u o).success = true) :
    (GitHubApi.fetchUser u o).errorType = none := by
  cases o with
  | response status retryDelayNow body =>
    by_cases hok : 200 ≤ status ∧ status ≤ 299
    · cases body with
      | some payload => simp [GitHubApi.fetchUser, hok]
      | none => simp [GitHubApi.fetchUser, hok] at h
    · by_cases h404 : status = 404
      · simp [GitHubApi.fetchUser, hok, h404] at h
      · by_cases h403 : status = 403
        · simp [GitHubApi.fetchUser, hok, h404, h403] at h
        · simp [GitHubApi.fetchUser, hok, h404, h403] at h
  | exception => simp [GitHubApi.fetchUser] at h

/-! ## C3: validator behaviour -/

/-- C3 counterexample: the claim says every string with a trailing hyphen is
rejected (the spec's pattern requires an alphanumeric final character), but
`InputValidator.validateUsername` uses the CONFIG regex
`^[a-zA-Z0-9]([a-zA-Z0-9-]){0,38}$`, which accepts `"a-"`; the spec's own
pattern (`specValidate`) rejects it. -/
theorem c3_counterexample :
    InputValidator.validateUsername "a-" = true ∧
    InputValidator.specValidate "a-" = false := by
  decide

/-- C3 (amended): `validateUsername` returns true iff the trimmed string is
non-empty, at most 39 characters, starts with an alphanumeric character, and
all its characters are alphanumeric or hyphens — i.e. the pattern
`^[a-zA-Z0-9][a-zA-Z0-9-]{0,38}$`: a trailing hyphen is accepted, while
leading hyphens, other characters, and lengths 0 or > 39 are rejected. -/
theorem c3_validate_characterization (s : String) :
    InputValidator.validateUsername s = true ↔
      ((jsTrim s).length ≠ 0 ∧ (jsTrim s).length ≤ 39 ∧
       (∀ c ∈ (jsTrim s).data, InputValidator.isAsciiAlphanumeric c = true ∨ c = '-') ∧
       (jsTrim s).data.head?.all InputValidator.isAsciiAlphanumeric = true) := by
  have hlen : (jsTrim s).length = (jsTrim s).data.length := rfl
  by_cases hs : s = ""
  · subst hs
    simp [InputValidator.validateUsername, jsTrim]
  · rw [InputValidator.validateUsername, if_neg hs]
    cases hdata : (jsTrim s).data with
    | nil =>
      have h0 : (jsTrim s).length = 0 := by rw [hlen, hdata]; rfl
      simp [InputValidator.patternTest, hdata, h0, MIN_LENGTH]
    | cons c rest =>
      have h1 : (jsTrim s).length = rest.length + 1 := by rw [hlen, hdata]; rfl
      simp only [InputValidator.patternTest, hdata, h1, Bool.and_eq_true, decide_eq_true_eq,
        List.all_eq_true, Bool.or_eq_true, beq_iff_eq, List.length_cons, MIN_LENGTH,
        MAX_LENGTH, List.mem_cons, Option.all_some, ne_eq, List.head?_cons]
      constructor
      · rintro ⟨⟨h1a, hle⟩, ⟨hc, h38⟩, hrest⟩
        refine ⟨by omega, by omega, ?_, hc⟩
        rintro d (rfl | hd)
        · exact Or.inl hc
        · exact hrest d hd
      · rintro ⟨h0, hle, hall, hc⟩
        exact ⟨⟨by omega, by omega⟩, ⟨hc, by omega⟩, fun d hd => hall d (Or.inr hd)⟩

/-- C3 witness: the amended characterization applied to a concrete accepted
username. -/
theorem c3_witness : InputValidator.validateUsername "octocat" = true :=
  (c3_validate_characterization "octocat").mpr (by decide)

/-! ## C2: cached success is returned without a second network call -/

/-- C2: once a lookup for an identifier has succeeded (so its result sits in
the cache under the lowercased key), any later `fetchUser` call on the same
client for any identifier with the same lowercased form returns that exact
cached success object, leaves the cache unchanged, and performs no network
call — whatever the network would have answered the second time. -/
theorem c2_cached_success_idempotent (tokenSet tokenSet₂ : Bool)
    (cache : List (String × Bundled.ResultB)) (u₁ u₂ : String)
    (o₁ o₂ : Bundled.HttpOutcomeB)
    (hkey : jsToLower u₂ = jsToLower u₁)
    (hsucc : (Bundled.fetchUser tokenSet cache u₁ o₁).1.success = true) :
    Bundled.fetchUser tokenSet₂ (Bundled.fetchUser tokenSet cache u₁ o₁).2.1 u₂ o₂ =
      ((Bundled.fetchUser tokenSet cache u₁ o₁).1,
       (Bundled.fetchUser tokenSet cache u₁ o₁).2.1, false) := by
  cases hl : (cache.lookup (jsToLower u₁)) with
  | some cached =>
    have h1 : Bundled.fetchUser tokenSet cache u₁ o₁ = (cached, cache, false) := by
      cases o₁ <;> simp [Bundled.fetchUser, hl]
    rw [h1]
    simp [Bundled.fetchUser, hkey, hl]
  | none =>
    cases o₁ with
    | response status statusText body =>
      by_cases hok : 200 ≤ status ∧ status ≤ 299
      · cases body with
        | parsed payload =>
          have h1 : Bundled.fetchUser tokenSet cache u₁
              (Bundled.HttpOutcomeB.response status statusText
                (Bundled.JsonBody.parsed payload)) =
              ({ success := true, data := some payload },
               Bundled.cacheSet cache (jsToLower u₁)
                 { success := true, data := some payload }, true) := by
            simp [Bundled.fetchUser, hl, hok]
          rw [h1]
          simp [Bundled.fetchUser, hkey, lookup_cacheSet]
        | threw m =>
          simp [Bundled.fetchUser, hl, hok, Bundled.errResult] at hsucc
      · simp [Bundled.fetchUser, hl, hok, Bundled.errResult] at hsucc
    | exception m =>
      simp [Bundled.fetchUser, hl, Bundled.errResult] at hsucc

/-- C2 witness: a success for "Octocat" is cached; looking up "octocat" next
returns the identical payload with no network call, even though the network
would have failed. -/
theorem c2_witness :
    jsToLower "octocat" = jsToLower "Octocat" ∧
    (Bundled.fetchUser false [] "Octocat"
      (Bundled.HttpOutcomeB.response 200 "OK" (Bundled.JsonBody.parsed "payload"))).1.success
      = true ∧
    Bundled.fetchUser true
      (Bundled.fetchUser false [] "Octocat"
        (Bundled.HttpOutcomeB.response 200 "OK" (Bundled.JsonBody.parsed "payload"))).2.1
      "octocat" (Bundled.HttpOutcomeB.exception "boom") =
      ((Bundled.fetchUser false [] "Octocat"
          (Bundled.HttpOutcomeB.response 200 "OK" (Bundled.JsonBody.parsed "payload"))).1,
       (Bundled.fetchUser false [] "Octocat"
          (Bundled.HttpOutcomeB.response 200 "OK" (Bundled.JsonBody.parsed "payload"))).2.1,
       false) :=
  ⟨by decide, by decide,
    c2_cached_success_idempotent false true [] "Octocat" "octocat" _ _
      (by decide) (by decide)⟩

/-! ## Chunking and trace lemmas -/

lemma createChunksAux_cons (size f : Nat) (x : String) (xs : List String) :
    Batch.createChunksAux size (f + 1) (x :: xs) =
      (x :: xs).take size :: Batch.createChunksAux size f ((x :: xs).drop size) := rfl

lemma createChunksAux_flatten (size : Nat) (hsize : 1 ≤ size) :
    ∀ (fuel : Nat) (l : List String), l.length ≤ fuel →
      (Batch.createChunksAux size fuel l).flatten = l := by
  intro fuel
  induction fuel with
  | zero =>
    intro l hl
    have : l = [] := List.eq_nil_of_length_eq_zero (by omega)
    subst this
    rfl
  | succ f ih =>
    intro l hl
    cases l with
    | nil => rfl
    | cons x xs =>
      have hdrop : ((x :: xs).drop size).length ≤ f := by
        rw [List.length_drop]
        simp only [List.length_cons] at hl ⊢
        omega
      rw [createChunksAux_cons, List.flatten_cons, ih _ hdrop,
        List.take_append_drop]

lemma createChunks_flatten (usernames : List String) (size : Nat) (hsize : 1 ≤ size) :
    (Batch.createChunks usernames size).flatten = usernames :=
  createChunksAux_flatten size hsize usernames.length usernames (le_refl _)

lemma ceil_div_step (n size : Nat) (hn : 1 ≤ n) (hsize : 1 ≤ size) :
    (n + size - 1) / size = (n - size + size - 1) / size + 1 := by
  by_cases hle : n ≤ size
  · have h0 : n - size = 0 := by omega
    rw [h0, Nat.zero_add]
    have h1 : (size - 1) / size = 0 := Nat.div_eq_of_lt (by omega)
    have h2 : (n + size - 1) / size = 1 := by
      have := Nat.div_eq_of_lt_le (by omega : 1 * size ≤ n + size - 1)
        (by omega : n + size - 1 < (1 + 1) * size)
      simpa using this
    omega
  · have : n + size - 1 = (n - size + size - 1) + size := by omega
    rw [this, Nat.add_div_right _ (by omega)]

lemma createChunksAux_length (size : Nat) (hsize : 1 ≤ size) :
    ∀ (fuel : Nat) (l : List String), l.length ≤ fuel →
      (Batch.createChunksAux size fuel l).length = (l.length + size - 1) / size := by
  have h0 : (0 + size - 1) / size = 0 := Nat.div_eq_of_lt (by omega)
  intro fuel
  induction fuel with
  | zero =>
    intro l hl
    have : l = [] := List.eq_nil_of_length_eq_zero (by omega)
    subst this
    simpa [Batch.createChunksAux] using h0.symm
  | succ f ih =>
    intro l hl
    cases l with
    | nil => simpa [Batch.createChunksAux] using h0.symm
    | cons x xs =>
      have hdrop : ((x :: xs).drop size).length ≤ f := by
        rw [List.length_drop]
        simp only [List.length_cons] at hl ⊢
        omega
      rw [createChunksAux_cons]
      simp only [List.length_cons]
      rw [ih _ hdrop, List.length_drop]
      have hn : 1 ≤ (x :: xs).length := by simp
      have := ceil_div_step (x :: xs).length size hn hsize
      simp only [List.length_cons] at this ⊢
      omega

lemma createChunks_length (usernames : List String) (size : Nat) (hsize : 1 ≤ size) :
    (Batch.createChunks usernames size).length = (usernames.length + size - 1) / size :=
  createChunksAux_length size hsize usernames.length usernames (le_refl _)

lemma mapWithIndex_length (f : Nat → String → FetchResult) :
    ∀ (l : List String) (i : Nat), (Batch.mapWithIndex f i l).length = l.length := by
  intro l
  induction l with
  | nil => intro i; rfl
  | cons u rest ih => intro i; simp [Batch.mapWithIndex, ih]

lemma mapWithIndex_username (f : Nat → String → FetchResult)
    (h : ∀ i u, (f i u).username = u) :
    ∀ (l : List String) (i : Nat),
      (Batch.mapWithIndex f i l).map FetchResult.username = l := by
  intro l
  induction l with
  | nil => intro i; rfl
  | cons u rest ih => intro i; simp [Batch.mapWithIndex, ih, h]

lemma chunkResultsAt_length (api : Nat → Nat → String → FetchResult)
    (thr : Nat → Bool) (j : Nat) (chunk : List String) :
    (Batch.chunkResultsAt api thr j chunk).length = chunk.length := by
  rw [Batch.chunkResultsAt]
  by_cases hthr : thr j
  · simp [hthr]
  · simp [hthr, mapWithIndex_length]

lemma chunkResultsAt_username (api : Nat → Nat → String → FetchResult)
    (thr : Nat → Bool) (j : Nat) (chunk : List String)
    (h : ∀ j i u, (api j i u).username = u) :
    (Batch.chunkResultsAt api thr j chunk).map FetchResult.username = chunk := by
  rw [Batch.chunkResultsAt]
  by_cases hthr : thr j
  · simp only [hthr, if_true, List.map_map]
    have hcomp : FetchResult.username ∘ Batch.mkProcessingError = id := rfl
    rw [hcomp, List.map_id]
  · simp only [hthr, Bool.false_eq_true, if_false]
    exact mapWithIndex_username _ (fun i u => h j i u) chunk 0

lemma resultsIn_append (a b : List Batch.Event) :
    Batch.resultsIn (a ++ b) = Batch.resultsIn a ++ Batch.resultsIn b := by
  simp [Batch.resultsIn, List.filterMap_append]

lemma resultsIn_resultEvs (l : List FetchResult) :
    Batch.resultsIn (l.map Batch.Event.resultEv) = l := by
  induction l with
  | nil => rfl
  | cons r rest ih => simpa [Batch.resultsIn] using ih

lemma progressIn_append (a b : List Batch.Event) :
    Batch.progressIn (a ++ b) = Batch.progressIn a ++ Batch.progressIn b := by
  simp [Batch.progressIn, List.filterMap_append]

lemma progressIn_resultEvs (l : List FetchResult) :
    Batch.progressIn (l.map Batch.Event.resultEv) = [] := by
  induction l with
  | nil => rfl
  | cons r rest ih => simpa [Batch.progressIn] using ih

lemma foldl_updateStats (rs : List FetchResult) :
    ∀ s : Batch.Stats,
      (rs.foldl Batch.updateStats s).processed = s.processed + rs.length ∧
      (rs.foldl Batch.updateStats s).successful =
        s.successful + rs.countP (fun r => r.success) ∧
      (rs.foldl Batch.updateStats s).failed =
        s.failed + rs.countP (fun r => !r.success) ∧
      (rs.foldl Batch.updateStats s).rateLimitHits = s.rateLimitHits := by
  induction rs with
  | nil => intro s; simp
  | cons r rest ih =>
    intro s
    obtain ⟨hp, hsuc, hf, hrl⟩ := ih (Batch.updateStats s r)
    by_cases hr : r.success
    · simp only [List.foldl_cons, List.countP_cons, hr]
      rw [hp, hsuc, hf, hrl]
      simp [Batch.updateStats, hr]
      omega
    · simp only [List.foldl_cons, List.countP_cons]
      rw [hp, hsuc, hf, hrl]
      simp only [Bool.not_eq_true] at hr
      simp [Batch.updateStats, hr]
      omega

/-- The stats after processing one chunk: both counters updated per settled
result, plus the single rateLimitHits bump of `_processChunk` when the chunk
was not thrown and contains a RATE_LIMITED result. -/
def Batch.chunkStep (api : Nat → Nat → String → FetchResult) (thr : Nat → Bool)
    (i : Nat) (chunk : List String) (s : Batch.Stats) : Batch.Stats :=
  if thr i then (chunk.map Batch.mkProcessingError).foldl Batch.updateStats s
  else
    let results := Batch.mapWithIndex (fun p u => api i p u) 0 chunk
    let s1 :=
      if 0 < (results.filter Batch.isRateLimited).length then
        { s with rateLimitHits := s.rateLimitHits + 1 }
      else s
    results.foldl Batch.updateStats s1

lemma executeLoop_cons (api : Nat → Nat → String → FetchResult) (thr : Nat → Bool)
    (ctop cpost : Nat → Bool) (total totalChunks delayMs : Nat)
    (chunk : List String) (rest : List (List String)) (i : Nat) (s : Batch.Stats)
    (hc : ctop i = false) :
    Batch.executeLoop api thr ctop cpost total totalChunks delayMs (chunk :: rest) i s =
      (Batch.Event.progressEv (Batch.reportProgress s total totalChunks i false false) ::
        (Batch.chunkResultsAt api thr i chunk).map Batch.Event.resultEv ++
        (if thr i = false ∧ i < totalChunks - 1 ∧ cpost i = false then
          [Batch.Event.delayEv delayMs] else []) ++
        (Batch.executeLoop api thr ctop cpost total totalChunks delayMs rest (i + 1)
          (Batch.chunkStep api thr i chunk s)).1,
       (Batch.executeLoop api thr ctop cpost total totalChunks delayMs rest (i + 1)
         (Batch.chunkStep api thr i chunk s)).2) := by
  by_cases hthr : thr i
  · simp [Batch.executeLoop, hc, Batch.processChunk, hthr, Batch.chunkResultsAt,
      Batch.chunkStep]
  · simp only [Bool.not_eq_true] at hthr
    simp [Batch.executeLoop, hc, Batch.processChunk, hthr, Batch.chunkResultsAt,
      Batch.chunkStep]

lemma executeLoop_cut (api : Nat → Nat → String → FetchResult) (thr : Nat → Bool)
    (ctop cpost : Nat → Bool) (total totalChunks delayMs : Nat) :
    ∀ (cs : List (List String)) (k i : Nat) (s : Batch.Stats),
      k ≤ cs.length → (∀ j, j < k → ctop (i + j) = false) →
      (k = cs.length ∨ ctop (i + k) = true) →
      Batch.executeLoop api thr ctop cpost total totalChunks delayMs cs i s =
        Batch.executeLoop api thr (fun j => false) cpost total totalChunks delayMs
          (cs.take k) i s := by
  intro cs
  induction cs with
  | nil =>
    intro k i s hk hj hend
    have : k = 0 := by simpa using hk
    subst this
    rfl
  | cons c rest ih =>
    intro k i s hk hj hend
    cases k with
    | zero =>
      have hc : ctop i = true := by
        rcases hend with hend | hend
        · simp at hend
        · simpa using hend
      simp [Batch.executeLoop, hc]
    | succ k =>
      have hc : ctop i = false := by simpa using hj 0 (by omega)
      rw [List.take_succ_cons]
      rw [executeLoop_cons api thr ctop cpost total totalChunks delayMs c rest i s hc]
      rw [executeLoop_cons api thr (fun j => false) cpost total totalChunks delayMs c
        (rest.take k) i s rfl]
      have hrec := ih k (i + 1) (Batch.chunkStep api thr i c s)
        (by simpa using hk)
        (fun j hjk => by
          rw [show i + 1 + j = i + (j + 1) from by omega]
          exact hj (j + 1) (by omega))
        (by
          rcases hend with hend | hend
          · left; simpa using hend
          · right
            rw [show i + 1 + k = i + (k + 1) from by omega]
            simpa using hend)
      rw [hrec]

lemma resultsIn_cons_progress (p : Batch.Progress) (t : List Batch.Event) :
    Batch.resultsIn (Batch.Event.progressEv p :: t) = Batch.resultsIn t := by
  simp [Batch.resultsIn]

lemma progressIn_cons_progress (p : Batch.Progress) (t : List Batch.Event) :
    Batch.progressIn (Batch.Event.progressEv p :: t) = p :: Batch.progressIn t := by
  simp [Batch.progressIn]

lemma resultsIn_delayIf (c : Prop) [Decidable c] (d : Nat) :
    Batch.resultsIn (if c then [Batch.Event.delayEv d] else []) = [] := by
  split <;> rfl

lemma progressIn_delayIf (c : Prop) [Decidable c] (d : Nat) :
    Batch.progressIn (if c then [Batch.Event.delayEv d] else []) = [] := by
  split <;> rfl

lemma executeLoop_results (api : Nat → Nat → String → FetchResult) (thr : Nat → Bool)
    (ctop cpost : Nat → Bool) (total totalChunks delayMs : Nat)
    (hfalse : ∀ j, ctop j = false) :
    ∀ (cs : List (List String)) (i : Nat) (s : Batch.Stats),
      Batch.resultsIn
        (Batch.executeLoop api thr ctop cpost total totalChunks delayMs cs i s).1 =
        (Batch.allChunkResults api thr cs i).flatten := by
  intro cs
  induction cs with
  | nil => intro i s; rfl
  | cons c rest ih =>
    intro i s
    rw [executeLoop_cons api thr ctop cpost total totalChunks delayMs c rest i s (hfalse i)]
    dsimp only
    simp only [Batch.allChunkResults, List.flatten_cons]
    simp only [resultsIn_append, resultsIn_cons_progress, resultsIn_resultEvs,
      resultsIn_delayIf, ih]
    simp

lemma executeLoop_progress_count (api : Nat → Nat → String → FetchResult)
    (thr : Nat → Bool) (ctop cpost : Nat → Bool) (total totalChunks delayMs : Nat)
    (hfalse : ∀ j, ctop j = false) :
    ∀ (cs : List (List String)) (i : Nat) (s : Batch.Stats),
      (Batch.progressIn
        (Batch.executeLoop api thr ctop cpost total totalChunks delayMs cs i s).1).length =
        cs.length := by
  intro cs
  induction cs with
  | nil => intro i s; rfl
  | cons c rest ih =>
    intro i s
    rw [executeLoop_cons api thr ctop cpost total totalChunks delayMs c rest i s (hfalse i)]
    dsimp only
    simp only [progressIn_append, progressIn_cons_progress, progressIn_resultEvs,
      progressIn_delayIf]
    simp [ih]

lemma countP_split (p : FetchResult → Bool) (l : List FetchResult) :
    l.countP p + l.countP (fun a => !p a) = l.length := by
  induction l with
  | nil => rfl
  | cons r rest ih =>
    simp only [List.countP_cons, List.length_cons]
    by_cases hr : p r <;> simp [hr] <;> omega

lemma filter_pos_iff_any (p : FetchResult → Bool) (l : List FetchResult) :
    0 < (l.filter p).length ↔ l.any p = true := by
  induction l with
  | nil => simp
  | cons r rest ih =>
    by_cases hr : p r <;> simp [List.filter_cons, hr, ih]

lemma any_isRateLimited_mkProc (c : List String) :
    (c.map Batch.mkProcessingError).any Batch.isRateLimited = false := by
  induction c with
  | nil => rfl
  | cons u rest ih =>
    simp only [List.map_cons, List.any_cons, ih, Bool.or_false]
    rfl

lemma chunkStep_stats (api : Nat → Nat → String → FetchResult) (thr : Nat → Bool)
    (i : Nat) (c : List String) (s : Batch.Stats) :
    (Batch.chunkStep api thr i c s).processed =
      s.processed + (Batch.chunkResultsAt api thr i c).length ∧
    (Batch.chunkStep api thr i c s).successful =
      s.successful + (Batch.chunkResultsAt api thr i c).countP (fun r => r.success) ∧
    (Batch.chunkStep api thr i c s).failed =
      s.failed + (Batch.chunkResultsAt api thr i c).countP (fun r => !r.success) ∧
    (Batch.chunkStep api thr i c s).rateLimitHits =
      s.rateLimitHits +
        (if (Batch.chunkResultsAt api thr i c).any Batch.isRateLimited then 1 else 0) := by
  by_cases hthr : thr i
  · simp only [Batch.chunkStep, Batch.chunkResultsAt, hthr, if_true]
    obtain ⟨hp, hs, hf, hr⟩ := foldl_updateStats (c.map Batch.mkProcessingError) s
    refine ⟨hp, hs, hf, ?_⟩
    rw [hr]
    simp [any_isRateLimited_mkProc]
  · simp only [Bool.not_eq_true] at hthr
    simp only [Batch.chunkStep, Batch.chunkResultsAt, hthr, Bool.false_eq_true, if_false]
    by_cases hany :
        (Batch.mapWithIndex (fun p u => api i p u) 0 c).any Batch.isRateLimited
    · have hpos : 0 < ((Batch.mapWithIndex (fun p u => api i p u) 0 c).filter
          Batch.isRateLimited).length := (filter_pos_iff_any _ _).mpr hany
      simp only [hpos, if_true, hany]
      obtain ⟨hp, hs, hf, hr⟩ := foldl_updateStats
        (Batch.mapWithIndex (fun p u => api i p u) 0 c)
        { s with rateLimitHits := s.rateLimitHits + 1 }
      exact ⟨hp, hs, hf, hr⟩
    · have hpos : ¬0 < ((Batch.mapWithIndex (fun p u => api i p u) 0 c).filter
          Batch.isRateLimited).length := fun h => hany ((filter_pos_iff_any _ _).mp h)
      simp only [hpos, if_false, hany]
      obtain ⟨hp, hs, hf, hr⟩ := foldl_updateStats
        (Batch.mapWithIndex (fun p u => api i p u) 0 c) s
      simpa using ⟨hp, hs, hf, hr⟩

lemma executeLoop_stats (api : Nat → Nat → String → FetchResult) (thr : Nat → Bool)
    (ctop cpost : Nat → Bool) (total totalChunks delayMs : Nat)
    (hfalse : ∀ j, ctop j = false) :
    ∀ (cs : List (List String)) (i : Nat) (s : Batch.Stats),
      (Batch.executeLoop api thr ctop cpost total totalChunks delayMs cs i s).2.processed =
        s.processed + (Batch.allChunkResults api thr cs i).flatten.length ∧
      (Batch.executeLoop api thr ctop cpost total totalChunks delayMs cs i s).2.successful =
        s.successful +
          (Batch.allChunkResults api thr cs i).flatten.countP (fun r => r.success) ∧
      (Batch.executeLoop api thr ctop cpost total totalChunks delayMs cs i s).2.failed =
        s.failed +
          (Batch.allChunkResults api thr cs i).flatten.countP (fun r => !r.success) ∧
      (Batch.executeLoop api thr ctop cpost total totalChunks delayMs cs i s).2.rateLimitHits =
        s.rateLimitHits +
          (Batch.allChunkResults api thr cs i).countP (fun rs => rs.any Batch.isRateLimited) := by
  intro cs
  induction cs with
  | nil => intro i s; simp [Batch.executeLoop, Batch.allChunkResults]
  | cons c rest ih =>
    intro i s
    rw [executeLoop_cons api thr ctop cpost total totalChunks delayMs c rest i s (hfalse i)]
    dsimp only
    obtain ⟨cp, cs', cf, cr⟩ := chunkStep_stats api thr i c s
    obtain ⟨lp, ls, lf, lr⟩ := ih (i + 1) (Batch.chunkStep api thr i c s)
    simp only [Batch.allChunkResults, List.flatten_cons, List.length_append,
      List.countP_append, List.countP_cons]
    refine ⟨by omega, by omega, by omega, ?_⟩
    rw [lr, cr]
    by_cases hany : (Batch.chunkResultsAt api thr i c).any Batch.isRateLimited <;>
      simp [hany] <;> omega

lemma executeLoop_progress_invariant (api : Nat → Nat → String → FetchResult)
    (thr : Nat → Bool) (ctop cpost : Nat → Bool) (total totalChunks delayMs : Nat)
    (hfalse : ∀ j, ctop j = false) :
    ∀ (cs : List (List String)) (i : Nat) (s : Batch.Stats),
      s.processed = s.successful + s.failed →
      ∀ p ∈ Batch.progressIn
        (Batch.executeLoop api thr ctop cpost total totalChunks delayMs cs i s).1,
        p.processed = p.successful + p.failed := by
  intro cs
  induction cs with
  | nil => intro i s hs p hp; simp [Batch.executeLoop, Batch.progressIn] at hp
  | cons c rest ih =>
    intro i s hs p hp
    rw [executeLoop_cons api thr ctop cpost total totalChunks delayMs c rest i s (hfalse i)]
      at hp
    dsimp only at hp
    simp only [progressIn_append, progressIn_cons_progress, progressIn_resultEvs,
      progressIn_delayIf, List.nil_append, List.append_nil, List.mem_cons,
      List.mem_append] at hp
    rcases hp with hp | hp
    · rcases hp with hp | hp
      · subst hp
        simpa [Batch.reportProgress] using hs
      · simp at hp
    · have hstep : (Batch.chunkStep api thr i c s).processed =
          (Batch.chunkStep api thr i c s).successful +
            (Batch.chunkStep api thr i c s).failed := by
        obtain ⟨cp, cs', cf, cr⟩ := chunkStep_stats api thr i c s
        have := countP_split (fun r => r.success) (Batch.chunkResultsAt api thr i c)
        omega
      exact ih (i + 1) (Batch.chunkStep api thr i c s) hstep p hp

/-! ### Cutting a trace at the n-th progress event -/

lemma beforeNth_progress_zero (p : Batch.Progress) (t : List Batch.Event) :
    Batch.beforeNthProgress (Batch.Event.progressEv p :: t) 0 = [] := rfl

lemma beforeNth_progress_succ (p : Batch.Progress) (t : List Batch.Event) (n : Nat) :
    Batch.beforeNthProgress (Batch.Event.progressEv p :: t) (n + 1) =
      Batch.Event.progressEv p :: Batch.beforeNthProgress t n := rfl

lemma beforeNth_result (r : FetchResult) (t : List Batch.Event) (n : Nat) :
    Batch.beforeNthProgress (Batch.Event.resultEv r :: t) n =
      Batch.Event.resultEv r :: Batch.beforeNthProgress t n := rfl

lemma beforeNth_delay (d : Nat) (t : List Batch.Event) (n : Nat) :
    Batch.beforeNthProgress (Batch.Event.delayEv d :: t) n =
      Batch.Event.delayEv d :: Batch.beforeNthProgress t n := rfl

lemma progressIn_cons_result (r : FetchResult) (t : List Batch.Event) :
    Batch.progressIn (Batch.Event.resultEv r :: t) = Batch.progressIn t := by
  simp [Batch.progressIn]

lemma progressIn_cons_delay (d : Nat) (t : List Batch.Event) :
    Batch.progressIn (Batch.Event.delayEv d :: t) = Batch.progressIn t := by
  simp [Batch.progressIn]

lemma beforeNth_append_noprog :
    ∀ (l t : List Batch.Event) (n : Nat), Batch.progressIn l = [] →
      Batch.beforeNthProgress (l ++ t) n = l ++ Batch.beforeNthProgress t n := by
  intro l
  induction l with
  | nil => intro t n hp; rfl
  | cons e rest ih =>
    intro t n hp
    cases e with
    | progressEv p => simp [progressIn_cons_progress] at hp
    | resultEv r =>
      rw [progressIn_cons_result] at hp
      rw [List.cons_append, beforeNth_result, ih _ _ hp, List.cons_append]
    | delayEv d =>
      rw [progressIn_cons_delay] at hp
      rw [List.cons_append, beforeNth_delay, ih _ _ hp, List.cons_append]

lemma executeLoop_beforeNth (api : Nat → Nat → String → FetchResult) (thr : Nat → Bool)
    (ctop cpost : Nat → Bool) (total totalChunks delayMs : Nat) :
    ∀ (cs : List (List String)) (n i : Nat) (s : Batch.Stats) (p : Batch.Progress),
      n ≤ cs.length → (∀ m, m < n → ctop (i + m) = false) →
      Batch.resultsIn (Batch.beforeNthProgress
        ((Batch.executeLoop api thr ctop cpost total totalChunks delayMs cs i s).1 ++
          [Batch.Event.progressEv p]) n) =
        (Batch.allChunkResults api thr (cs.take n) i).flatten := by
  intro cs
  induction cs with
  | nil =>
    intro n i s p hn hm
    have : n = 0 := by simpa using hn
    subst this
    rfl
  | cons c rest ih =>
    intro n i s p hn hm
    cases n with
    | zero =>
      by_cases hc : ctop i
      · simp [Batch.executeLoop, hc, beforeNth_progress_zero, Batch.resultsIn,
          Batch.allChunkResults]
      · rw [executeLoop_cons api thr ctop cpost total totalChunks delayMs c rest i s
          (by simpa using hc)]
        dsimp only
        simp only [List.cons_append, List.append_assoc]
        rw [beforeNth_progress_zero]
        rfl
    | succ n =>
      have hc : ctop i = false := by simpa using hm 0 (by omega)
      rw [executeLoop_cons api thr ctop cpost total totalChunks delayMs c rest i s hc]
      dsimp only
      simp only [List.cons_append, List.append_assoc]
      rw [beforeNth_progress_succ, resultsIn_cons_progress]
      rw [beforeNth_append_noprog _ _ _ (progressIn_resultEvs _)]
      rw [beforeNth_append_noprog _ _ _ (progressIn_delayIf _ _)]
      rw [resultsIn_append, resultsIn_resultEvs, resultsIn_append, resultsIn_delayIf]
      rw [ih n (i + 1) (Batch.chunkStep api thr i c s) p (by simpa using hn)
        (fun m hmn => by
          rw [show i + 1 + m = i + (m + 1) from by omega]
          exact hm (m + 1) (by omega))]
      simp [Batch.allChunkResults, List.take_succ_cons]

/-! ### allChunkResults lemmas -/

lemma allChunkResults_flatten_length (api : Nat → Nat → String → FetchResult)
    (thr : Nat → Bool) :
    ∀ (cs : List (List String)) (i : Nat),
      (Batch.allChunkResults api thr cs i).flatten.length = cs.flatten.length := by
  intro cs
  induction cs with
  | nil => intro i; rfl
  | cons c rest ih =>
    intro i
    simp only [Batch.allChunkResults, List.flatten_cons, List.length_append,
      chunkResultsAt_length, ih]

lemma allChunkResults_flatten_username (api : Nat → Nat → String → FetchResult)
    (thr : Nat → Bool) (husers : ∀ j i u, (api j i u).username = u) :
    ∀ (cs : List (List String)) (i : Nat),
      (Batch.allChunkResults api thr cs i).flatten.map FetchResult.username = cs.flatten := by
  intro cs
  induction cs with
  | nil => intro i; rfl
  | cons c rest ih =>
    intro i
    simp only [Batch.allChunkResults, List.flatten_cons, List.map_append, ih,
      chunkResultsAt_username api thr i c husers]

lemma mem_allChunkResults (api : Nat → Nat → String → FetchResult) (thr : Nat → Bool) :
    ∀ (cs : List (List String)) (i j : Nat) (c : List String),
      cs[j]? = some c →
      Batch.chunkResultsAt api thr (i + j) c ∈ Batch.allChunkResults api thr cs i := by
  intro cs
  induction cs with
  | nil => intro i j c h; simp at h
  | cons c0 rest ih =>
    intro i j c h
    cases j with
    | zero =>
      simp only [List.getElem?_cons_zero, Option.some_inj] at h
      subst h
      simp [Batch.allChunkResults]
    | succ j =>
      simp only [List.getElem?_cons_succ] at h
      have := ih (i + 1) j c h
      rw [show i + 1 + j = i + (j + 1) from by omega] at this
      simp [Batch.allChunkResults, this]

/-! ## C6/C7: the retry wrapper -/

/-- The wait the retry loop performs after a failed attempt `n` before
attempt `n + 1`: the rate-limit delay (`retryAfter || RETRY_DELAY`) after a
RATE_LIMITED failure, the exponential backoff `2^n * 1000` ms otherwise. -/
def retryWait (fetchAt : Nat → FetchResult) (n : Nat) : Nat :=
  if (fetchAt n).errorType = some ErrorType.RATE_LIMITED then
    jsOrNat (fetchAt n).retryAfter RETRY_DELAY
  else 2 ^ n * 1000

lemma retryGo_spec (fetchAt : Nat → FetchResult) (maxRetries : Nat) :
    ∀ (remaining attempt : Nat) (lastError : Option FetchResult),
      attempt + remaining = maxRetries + 1 → 1 ≤ attempt → 1 ≤ remaining →
      attempt ≤ (GitHubApi.retryGo fetchAt maxRetries remaining attempt lastError).attempts ∧
      (GitHubApi.retryGo fetchAt maxRetries remaining attempt lastError).attempts ≤ maxRetries ∧
      (GitHubApi.retryGo fetchAt maxRetries remaining attempt lastError).result =
        some (fetchAt (GitHubApi.retryGo fetchAt maxRetries remaining attempt lastError).attempts) ∧
      (∀ i, attempt ≤ i →
        i < (GitHubApi.retryGo fetchAt maxRetries remaining attempt lastError).attempts →
        (fetchAt i).success = false ∧
        ((fetchAt i).errorType = some ErrorType.RATE_LIMITED ∨
         (fetchAt i).errorType = some ErrorType.NETWORK_ERROR)) ∧
      (GitHubApi.retryGo fetchAt maxRetries remaining attempt lastError).waits.length =
        (GitHubApi.retryGo fetchAt maxRetries remaining attempt lastError).attempts - attempt ∧
      (∀ k, k < (GitHubApi.retryGo fetchAt maxRetries remaining attempt lastError).waits.length →
        (GitHubApi.retryGo fetchAt maxRetries remaining attempt lastError).waits.getD k 0 =
          retryWait fetchAt (attempt + k)) := by
  intro remaining
  induction remaining with
  | zero => intro attempt lastError hinv h1 h0; omega
  | succ rem ih =>
    intro attempt lastError hinv h1 _
    by_cases hsuc : (fetchAt attempt).success
    · have hrun : GitHubApi.retryGo fetchAt maxRetries (rem + 1) attempt lastError =
          { result := some (fetchAt attempt), attempts := attempt, waits := [] } := by
        simp [GitHubApi.retryGo, hsuc]
      rw [hrun]
      dsimp only
      refine ⟨le_refl _, by omega, rfl, fun i hi1 hi2 => by omega, by simp, fun k hk => by simp at hk⟩
    · by_cases hterm : (fetchAt attempt).errorType = some ErrorType.NOT_FOUND ∨
          (fetchAt attempt).errorType = some ErrorType.API_ERROR
      · have hrun : GitHubApi.retryGo fetchAt maxRetries (rem + 1) attempt lastError =
            { result := some (fetchAt attempt), attempts := attempt, waits := [] } := by
          simp [GitHubApi.retryGo, hsuc, hterm]
        rw [hrun]
        dsimp only
        refine ⟨le_refl _, by omega, rfl, fun i hi1 hi2 => by omega, by simp,
          fun k hk => by simp at hk⟩
      · by_cases hrl : (fetchAt attempt).errorType = some ErrorType.RATE_LIMITED
        · by_cases hlt : attempt < maxRetries
          · have hrem : 1 ≤ rem := by omega
            obtain ⟨ha1, ha2, hres, hprev, hwl, hwv⟩ :=
              ih (attempt + 1) (some (fetchAt attempt)) (by omega) (by omega) hrem
            have hrun : GitHubApi.retryGo fetchAt maxRetries (rem + 1) attempt lastError =
                { result :=
                    (GitHubApi.retryGo fetchAt maxRetries rem (attempt + 1)
                      (some (fetchAt attempt))).result,
                  attempts :=
                    (GitHubApi.retryGo fetchAt maxRetries rem (attempt + 1)
                      (some (fetchAt attempt))).attempts,
                  waits := jsOrNat (fetchAt attempt).retryAfter RETRY_DELAY ::
                    (GitHubApi.retryGo fetchAt maxRetries rem (attempt + 1)
                      (some (fetchAt attempt))).waits } := by
              simp [GitHubApi.retryGo, hsuc, hterm, hrl, hlt]
            rw [hrun]
            dsimp only
            refine ⟨by omega, ha2, hres, ?_, ?_, ?_⟩
            · intro i hi1 hi2
              rcases Nat.eq_or_lt_of_le hi1 with heq | hlt2
              · subst heq
                exact ⟨by simpa using hsuc, Or.inl hrl⟩
              · exact hprev i hlt2 hi2
            · simp only [List.length_cons, hwl]
              omega
            · intro k hk
              cases k with
              | zero =>
                simp only [List.getD_cons_zero, Nat.add_zero, retryWait, if_pos hrl]
              | succ k2 =>
                simp only [List.getD_cons_succ]
                have hk2 : k2 < (GitHubApi.retryGo fetchAt maxRetries rem (attempt + 1)
                    (some (fetchAt attempt))).waits.length := by
                  simp only [List.length_cons] at hk
                  omega
                rw [hwv k2 hk2]
                congr 1
                omega
          · have hrun : GitHubApi.retryGo fetchAt maxRetries (rem + 1) attempt lastError =
                { result := some (fetchAt attempt), attempts := attempt, waits := [] } := by
              simp [GitHubApi.retryGo, hsuc, hterm, hrl, hlt]
            rw [hrun]
            dsimp only
            refine ⟨le_refl _, by omega, rfl, fun i hi1 hi2 => by omega, by simp,
              fun k hk => by simp at hk⟩
        · by_cases hne : (fetchAt attempt).errorType = some ErrorType.NETWORK_ERROR ∧
              attempt < maxRetries
          · have hrem : 1 ≤ rem := by omega
            obtain ⟨ha1, ha2, hres, hprev, hwl, hwv⟩ :=
              ih (attempt + 1) (some (fetchAt attempt)) (by omega) (by omega) hrem
            have hrun : GitHubApi.retryGo fetchAt maxRetries (rem + 1) attempt lastError =
                { result :=
                    (GitHubApi.retryGo fetchAt maxRetries rem (attempt + 1)
                      (some (fetchAt attempt))).result,
                  attempts :=
                    (GitHubApi.retryGo fetchAt maxRetries rem (attempt + 1)
                      (some (fetchAt attempt))).attempts,
                  waits := 2 ^ attempt * 1000 ::
                    (GitHubApi.retryGo fetchAt maxRetries rem (attempt + 1)
                      (some (fetchAt attempt))).waits } := by
              simp [GitHubApi.retryGo, hsuc, hterm, hrl, hne]
            rw [hrun]
            dsimp only
            refine ⟨by omega, ha2, hres, ?_, ?_, ?_⟩
            · intro i hi1 hi2
              rcases Nat.eq_or_lt_of_le hi1 with heq | hlt2
              · subst heq
                exact ⟨by simpa using hsuc, Or.inr hne.1⟩
              · exact hprev i hlt2 hi2
            · simp only [List.length_cons, hwl]
              omega
            · intro k hk
              cases k with
              | zero =>
                simp only [List.getD_cons_zero, Nat.add_zero, retryWait, if_neg hrl]
              | succ k2 =>
                simp only [List.getD_cons_succ]
                have hk2 : k2 < (GitHubApi.retryGo fetchAt maxRetries rem (attempt + 1)
                    (some (fetchAt attempt))).waits.length := by
                  simp only [List.length_cons] at hk
                  omega
                rw [hwv k2 hk2]
                congr 1
                omega
          · have hrun : GitHubApi.retryGo fetchAt maxRetries (rem + 1) attempt lastError =
                { result := some (fetchAt attempt), attempts := attempt, waits := [] } := by
              simp [GitHubApi.retryGo, hsuc, hterm, hrl, hne]
            rw [hrun]
            dsimp only
            refine ⟨le_refl _, by omega, rfl, fun i hi1 hi2 => by omega, by simp,
              fun k hk => by simp at hk⟩

/-- C6: the retry wrapper performs between 1 and `maxRetries` fetches; it
returns the value of its final fetch (so the first Success when one occurs,
the last observed Failure otherwise); every attempt before the final one was
a retryable failure (RATE_LIMITED or NETWORK_ERROR, never a success); it waits
exactly once between consecutive attempts, and the wait after attempt `n` is
`retryAfter || RETRY_DELAY` for a RATE_LIMITED failure and the exponential
backoff `2^n` seconds for a NETWORK_ERROR failure. -/
theorem c6_retry_characterization (fetchAt : Nat → FetchResult) (maxRetries : Nat)
    (h : 1 ≤ maxRetries) :
    1 ≤ (GitHubApi.fetchUserWithRetry fetchAt maxRetries).attempts ∧
    (GitHubApi.fetchUserWithRetry fetchAt maxRetries).attempts ≤ maxRetries ∧
    (GitHubApi.fetchUserWithRetry fetchAt maxRetries).result =
      some (fetchAt (GitHubApi.fetchUserWithRetry fetchAt maxRetries).attempts) ∧
    (∀ i, 1 ≤ i → i < (GitHubApi.fetchUserWithRetry fetchAt maxRetries).attempts →
      (fetchAt i).success = false ∧
      ((fetchAt i).errorType = some ErrorType.RATE_LIMITED ∨
       (fetchAt i).errorType = some ErrorType.NETWORK_ERROR)) ∧
    (GitHubApi.fetchUserWithRetry fetchAt maxRetries).waits.length =
      (GitHubApi.fetchUserWithRetry fetchAt maxRetries).attempts - 1 ∧
    (∀ k, k < (GitHubApi.fetchUserWithRetry fetchAt maxRetries).waits.length →
      (GitHubApi.fetchUserWithRetry fetchAt maxRetries).waits.getD k 0 =
        retryWait fetchAt (1 + k)) :=
  retryGo_spec fetchAt maxRetries maxRetries 1 none (by omega) (by omega) h

/-- C6 witness: a run that is rate limited twice (with server delay 70 ms)
and then succeeds at the third of `MAX_RETRIES = 3` attempts. -/
theorem c6_witness :
    (GitHubApi.fetchUserWithRetry
      (fun n => GitHubApi.fetchUser "u"
        (if n ≤ 2 then GitHubApi.HttpOutcome.response 403 70 none
         else GitHubApi.HttpOutcome.response 200 0 (some "payload"))) MAX_RETRIES).attempts
      ≤ MAX_RETRIES :=
  (c6_retry_characterization
    (fun n => GitHubApi.fetchUser "u"
      (if n ≤ 2 then GitHubApi.HttpOutcome.response 403 70 none
       else GitHubApi.HttpOutcome.response 200 0 (some "payload"))) MAX_RETRIES
    (by decide)).2.1

/-- C7: a first attempt that comes back NOT_FOUND or API_ERROR is terminal —
the wrapper returns that failure at once, with exactly one underlying fetch
and no waiting. -/
theorem c7_terminal_no_retry (outcomes : Nat → GitHubApi.HttpOutcome) (u : String)
    (maxRetries : Nat) (h : 1 ≤ maxRetries)
    (hterm : (GitHubApi.fetchUser u (outcomes 1)).errorType = some ErrorType.NOT_FOUND ∨
             (GitHubApi.fetchUser u (outcomes 1)).errorType = some ErrorType.API_ERROR) :
    GitHubApi.fetchUserWithRetry (fun n => GitHubApi.fetchUser u (outcomes n)) maxRetries =
      { result := some (GitHubApi.fetchUser u (outcomes 1)), attempts := 1, waits := [] } := by
  obtain ⟨rem, rfl⟩ : ∃ rem, maxRetries = rem + 1 := ⟨maxRetries - 1, by omega⟩
  have hsuc : (GitHubApi.fetchUser u (outcomes 1)).success = false := by
    cases hcase : (GitHubApi.fetchUser u (outcomes 1)).success with
    | false => rfl
    | true =>
      have := fetchUser_success_errorType u (outcomes 1) hcase
      rcases hterm with hterm | hterm <;> rw [this] at hterm <;> exact absurd hterm (by simp)
  rw [GitHubApi.fetchUserWithRetry]
  simp [GitHubApi.retryGo, hsuc, hterm]

/-- C7 witness: a 404 answer is returned immediately with one fetch. -/
theorem c7_witness :
    GitHubApi.fetchUserWithRetry
      (fun n => GitHubApi.fetchUser "ghost" ((fun _ => GitHubApi.HttpOutcome.response 404 0 none) n))
      MAX_RETRIES =
      { result := some (GitHubApi.fetchUser "ghost" (GitHubApi.HttpOutcome.response 404 0 none)),
        attempts := 1, waits := [] } :=
  c7_terminal_no_retry (fun _ => GitHubApi.HttpOutcome.response 404 0 none) "ghost"
    MAX_RETRIES (by decide) (by decide)

/-! ## C1/C4/C5/C8/C9/C10: the batch orchestrator -/

lemma execute_eq (api : Nat → Nat → String → FetchResult) (thr : Nat → Bool)
    (ctop cpost : Nat → Bool) (cfin : Bool) (usernames : List String)
    (chunkSize delayMs : Nat) :
    Batch.execute api thr ctop cpost cfin usernames chunkSize delayMs =
      ((Batch.executeLoop api thr ctop cpost usernames.length
          (Batch.createChunks usernames chunkSize).length delayMs
          (Batch.createChunks usernames chunkSize) 0 Batch.initialStats).1 ++
        [Batch.Event.progressEv
          (Batch.reportProgress
            (Batch.executeLoop api thr ctop cpost usernames.length
              (Batch.createChunks usernames chunkSize).length delayMs
              (Batch.createChunks usernames chunkSize) 0 Batch.initialStats).2
            usernames.length (Batch.createChunks usernames chunkSize).length
            (Batch.createChunks usernames chunkSize).length true cfin)],
       (Batch.executeLoop api thr ctop cpost usernames.length
         (Batch.createChunks usernames chunkSize).length delayMs
         (Batch.createChunks usernames chunkSize) 0 Batch.initialStats).2) := rfl

/-- C1: the results of the first `j + 1` chunks — and exactly those — are
delivered via `onResult` before the `(j+1)`-th `onProgress` call of the run,
i.e. before chunk `j + 1` starts processing (its progress snapshot is emitted
immediately before its fan-out) and before the run ends.  So every chunk's
results are streamed as soon as that chunk settles, never buffered to the end
of the run, and no later chunk's result appears earlier. -/
theorem c1_results_stream_before_next_chunk
    (api : Nat → Nat → String → FetchResult) (thr : Nat → Bool)
    (ctop cpost : Nat → Bool) (cfin : Bool)
    (usernames : List String) (chunkSize delayMs : Nat) (j : Nat)
    (hj : j < (Batch.createChunks usernames chunkSize).length)
    (hnc : ∀ m, m ≤ j → ctop m = false) :
    Batch.resultsIn (Batch.beforeNthProgress
      (Batch.execute api thr ctop cpost cfin usernames chunkSize delayMs).1 (j + 1)) =
      (Batch.allChunkResults api thr
        ((Batch.createChunks usernames chunkSize).take (j + 1)) 0).flatten := by
  rw [execute_eq]
  exact executeLoop_beforeNth api thr ctop cpost usernames.length
    (Batch.createChunks usernames chunkSize).length delayMs
    (Batch.createChunks usernames chunkSize) (j + 1) 0 Batch.initialStats _
    (by omega)
    (fun m hm => by
      rw [Nat.zero_add]
      exact hnc m (by omega))

/-- C1 witness: results of chunk 1 of a two-chunk run are all delivered
before the second progress snapshot. -/
theorem c1_witness :
    Batch.resultsIn (Batch.beforeNthProgress
      (Batch.execute (fun _ _ u => { success := true, username := u })
        (fun _ => false) (fun _ => false) (fun _ => false) false
        ["a", "b", "c"] 2 1000).1 1) =
      (Batch.allChunkResults (fun _ _ u => { success := true, username := u })
        (fun _ => false)
        ((Batch.createChunks ["a", "b", "c"] 2).take 1) 0).flatten :=
  c1_results_stream_before_next_chunk (fun _ _ u => { success := true, username := u })
    (fun _ => false) (fun _ => false) (fun _ => false) false ["a", "b", "c"] 2 1000 0
    (by decide) (fun m hm => rfl)

lemma progressIn_concat (t : List Batch.Event) (p : Batch.Progress) :
    Batch.progressIn (t ++ [Batch.Event.progressEv p]) = Batch.progressIn t ++ [p] := by
  rw [progressIn_append]
  rfl

/-- C5: a non-cancelled batch run over `N` identifiers with chunk size `C ≥ 1`
invokes `onResult` exactly `N` times and `onProgress` exactly
`ceil(N / C) + 1` times (one snapshot before each chunk plus the final one),
and the last progress snapshot carries `isComplete = true`. -/
theorem c5_result_and_progress_counts
    (api : Nat → Nat → String → FetchResult) (thr : Nat → Bool)
    (cpost : Nat → Bool) (cfin : Bool)
    (usernames : List String) (chunkSize delayMs : Nat) (hcs : 1 ≤ chunkSize) :
    (Batch.resultsIn (Batch.execute api thr (fun j => false) cpost cfin usernames
      chunkSize delayMs).1).length = usernames.length ∧
    (Batch.progressIn (Batch.execute api thr (fun j => false) cpost cfin usernames
      chunkSize delayMs).1).length =
      (usernames.length + chunkSize - 1) / chunkSize + 1 ∧
    ((Batch.progressIn (Batch.execute api thr (fun j => false) cpost cfin usernames
      chunkSize delayMs).1).getLast?.map Batch.Progress.isComplete) = some true := by
  rw [execute_eq]
  refine ⟨?_, ?_, ?_⟩
  · rw [resultsIn_append,
      executeLoop_results api thr (fun j => false) cpost _ _ _ (fun j => rfl)]
    simp only [Batch.resultsIn, List.filterMap, List.append_nil]
    rw [allChunkResults_flatten_length, createChunks_flatten usernames chunkSize hcs]
  · rw [progressIn_concat, List.length_append,
      executeLoop_progress_count api thr (fun j => false) cpost _ _ _ (fun j => rfl)]
    rw [createChunks_length usernames chunkSize hcs]
    rfl
  · rw [progressIn_concat, List.getLast?_concat]
    rfl

/-- C5 witness: three identifiers with chunk size 2 give 3 results and
ceil(3/2) + 1 = 3 progress snapshots. -/
theorem c5_witness :
    1 ≤ 2 ∧
    (Batch.resultsIn (Batch.execute (fun _ _ u => { success := true, username := u })
      (fun _ => false) (fun j => false) (fun _ => false) false
      ["a", "b", "c"] 2 1000).1).length = (["a", "b", "c"] : List String).length :=
  ⟨by decide,
    (c5_result_and_progress_counts (fun _ _ u => { success := true, username := u })
      (fun _ => false) (fun _ => false) false ["a", "b", "c"] 2 1000 (by decide)).1⟩

/-- C4 counterexample: the claim says `rateLimitHits` is incremented per
result, so a run with 2 RATE_LIMITED results should end with
`rateLimitHits = 2`; in fact `_processChunk` bumps the counter at most once
per chunk, so a single chunk whose two lookups are both rate limited ends
with `rateLimitHits = 1` while 2 RATE_LIMITED results were emitted. -/
theorem c4_counterexample :
    (Batch.execute
      (fun _ _ u => { success := false, username := u,
                      error := some "Rate limit exceeded",
                      errorType := some ErrorType.RATE_LIMITED })
      (fun _ => false) (fun _ => false) (fun _ => false) false
      ["alpha", "beta"] 8 1000).2.rateLimitHits = 1 ∧
    ((Batch.resultsIn (Batch.execute
      (fun _ _ u => { success := false, username := u,
                      error := some "Rate limit exceeded",
                      errorType := some ErrorType.RATE_LIMITED })
      (fun _ => false) (fun _ => false) (fun _ => false) false
      ["alpha", "beta"] 8 1000).1).filter Batch.isRateLimited).length = 2 :=
  ⟨rfl, rfl⟩

/-- C4 (amended): `processed`, `successful` and `failed` are incremented per
result — after any non-cancelled run, `processed` equals the number of
`onResult` invocations, `successful`/`failed` count the success/failure
results, and `processed = successful + failed` holds in the final stats and in
every emitted progress snapshot.  `rateLimitHits`, however, is incremented
once per chunk: it equals the number of chunks whose settled results contain
at least one RATE_LIMITED failure, not the number of RATE_LIMITED results. -/
theorem c4_stats_per_result (api : Nat → Nat → String → FetchResult) (thr : Nat → Bool)
    (cpost : Nat → Bool) (cfin : Bool)
    (usernames : List String) (chunkSize delayMs : Nat) :
    (Batch.execute api thr (fun j => false) cpost cfin usernames
      chunkSize delayMs).2.processed =
      (Batch.resultsIn (Batch.execute api thr (fun j => false) cpost cfin usernames
        chunkSize delayMs).1).length ∧
    (Batch.execute api thr (fun j => false) cpost cfin usernames
      chunkSize delayMs).2.successful =
      ((Batch.resultsIn (Batch.execute api thr (fun j => false) cpost cfin usernames
        chunkSize delayMs).1).filter (fun r => r.success)).length ∧
    (Batch.execute api thr (fun j => false) cpost cfin usernames
      chunkSize delayMs).2.failed =
      ((Batch.resultsIn (Batch.execute api thr (fun j => false) cpost cfin usernames
        chunkSize delayMs).1).filter (fun r => !r.success)).length ∧
    (Batch.execute api thr (fun j => false) cpost cfin usernames
      chunkSize delayMs).2.processed =
      (Batch.execute api thr (fun j => false) cpost cfin usernames
        chunkSize delayMs).2.successful +
      (Batch.execute api thr (fun j => false) cpost cfin usernames
        chunkSize delayMs).2.failed ∧
    (Batch.execute api thr (fun j => false) cpost cfin usernames
      chunkSize delayMs).2.rateLimitHits =
      ((Batch.allChunkResults api thr (Batch.createChunks usernames chunkSize) 0).filter
        (fun rs => rs.any Batch.isRateLimited)).length ∧
    (∀ p ∈ Batch.progressIn (Batch.execute api thr (fun j => false) cpost cfin usernames
      chunkSize delayMs).1, p.processed = p.successful + p.failed) := by
  obtain ⟨hp, hs, hf, hr⟩ := executeLoop_stats api thr (fun j => false) cpost
    usernames.length (Batch.createChunks usernames chunkSize).length delayMs
    (fun j => rfl) (Batch.createChunks usernames chunkSize) 0 Batch.initialStats
  have hresults := executeLoop_results api thr (fun j => false) cpost
    usernames.length (Batch.createChunks usernames chunkSize).length delayMs
    (fun j => rfl) (Batch.createChunks usernames chunkSize) 0 Batch.initialStats
  have hinit : Batch.initialStats.processed = 0 ∧ Batch.initialStats.successful = 0 ∧
      Batch.initialStats.failed = 0 ∧ Batch.initialStats.rateLimitHits = 0 :=
    ⟨rfl, rfl, rfl, rfl⟩
  have hsplit := countP_split (fun r => r.success)
    (Batch.allChunkResults api thr (Batch.createChunks usernames chunkSize) 0).flatten
  rw [execute_eq]
  simp only [resultsIn_append]
  have hempty : Batch.resultsIn [Batch.Event.progressEv
      (Batch.reportProgress
        (Batch.executeLoop api thr (fun j => false) cpost usernames.length
          (Batch.createChunks usernames chunkSize).length delayMs
          (Batch.createChunks usernames chunkSize) 0 Batch.initialStats).2
        usernames.length (Batch.createChunks usernames chunkSize).length
        (Batch.createChunks usernames chunkSize).length true cfin)] = [] := rfl
  rw [hempty, List.append_nil, hresults]
  refine ⟨?_, ?_, ?_, ?_, ?_, ?_⟩
  · rw [hp, hinit.1, Nat.zero_add]
  · rw [hs, hinit.2.1, Nat.zero_add, List.countP_eq_length_filter]
  · rw [hf, hinit.2.2.1, Nat.zero_add, List.countP_eq_length_filter]
  · omega
  · rw [hr, hinit.2.2.2, Nat.zero_add, List.countP_eq_length_filter]
  · intro p hp2
    rw [progressIn_concat, List.mem_append] at hp2
    rcases hp2 with hp2 | hp2
    · exact executeLoop_progress_invariant api thr (fun j => false) cpost
        usernames.length (Batch.createChunks usernames chunkSize).length delayMs
        (fun j => rfl) (Batch.createChunks usernames chunkSize) 0 Batch.initialStats
        rfl p hp2
    · simp only [List.mem_singleton] at hp2
      subst hp2
      simp only [Batch.reportProgress]
      omega

/-- C4 witness: the amended per-result stats law evaluated on a concrete
two-identifier run. -/
theorem c4_witness :
    (Batch.execute (fun _ _ u => { success := true, username := u })
      (fun _ => false) (fun j => false) (fun _ => false) false
      ["alpha", "beta"] 8 1000).2.processed =
      (Batch.resultsIn (Batch.execute (fun _ _ u => { success := true, username := u })
        (fun _ => false) (fun j => false) (fun _ => false) false
        ["alpha", "beta"] 8 1000).1).length :=
  (c4_stats_per_result (fun _ _ u => { success := true, username := u })
    (fun _ => false) (fun _ => false) false ["alpha", "beta"] 8 1000).1

/-- C8: no lookup exception terminates the batch and no identifier is
dropped: (a) `fetchUser` turns a thrown network error into a NETWORK_ERROR
failure result; (b) across a full non-cancelled run, the emitted results'
usernames are exactly the input identifiers, in order; (c) when a whole
chunk's fan-out throws, every identifier of that chunk still appears as a
synthesized PROCESSING_ERROR failure in the result stream. -/
theorem c8_no_exception_escapes (api : Nat → Nat → String → FetchResult)
    (thr : Nat → Bool) (cpost : Nat → Bool) (cfin : Bool)
    (usernames : List String) (chunkSize delayMs : Nat)
    (hcs : 1 ≤ chunkSize) (husers : ∀ j i u, (api j i u).username = u) :
    (∀ u : String,
      (GitHubApi.fetchUser u GitHubApi.HttpOutcome.exception).success = false ∧
      (GitHubApi.fetchUser u GitHubApi.HttpOutcome.exception).errorType =
        some ErrorType.NETWORK_ERROR) ∧
    (Batch.resultsIn (Batch.execute api thr (fun j => false) cpost cfin usernames
      chunkSize delayMs).1).map FetchResult.username = usernames ∧
    (∀ j c, (Batch.createChunks usernames chunkSize)[j]? = some c → thr j = true →
      ∀ u ∈ c, Batch.mkProcessingError u ∈
        Batch.resultsIn (Batch.execute api thr (fun j => false) cpost cfin usernames
          chunkSize delayMs).1) := by
  have hresults := executeLoop_results api thr (fun j => false) cpost
    usernames.length (Batch.createChunks usernames chunkSize).length delayMs
    (fun j => rfl) (Batch.createChunks usernames chunkSize) 0 Batch.initialStats
  refine ⟨fun u => ⟨rfl, rfl⟩, ?_, ?_⟩
  · rw [execute_eq, resultsIn_append]
    rw [show Batch.resultsIn [Batch.Event.progressEv
        (Batch.reportProgress
          (Batch.executeLoop api thr (fun j => false) cpost usernames.length
            (Batch.createChunks usernames chunkSize).length delayMs
            (Batch.createChunks usernames chunkSize) 0 Batch.initialStats).2
          usernames.length (Batch.createChunks usernames chunkSize).length
          (Batch.createChunks usernames chunkSize).length true cfin)] = [] from rfl]
    rw [List.append_nil, hresults,
      allChunkResults_flatten_username api thr husers,
      createChunks_flatten usernames chunkSize hcs]
  · intro j c hjc hthr u hu
    rw [execute_eq, resultsIn_append]
    rw [show Batch.resultsIn [Batch.Event.progressEv
        (Batch.reportProgress
          (Batch.executeLoop api thr (fun j => false) cpost usernames.length
            (Batch.createChunks usernames chunkSize).length delayMs
            (Batch.createChunks usernames chunkSize) 0 Batch.initialStats).2
          usernames.length (Batch.createChunks usernames chunkSize).length
          (Batch.createChunks usernames chunkSize).length true cfin)] = [] from rfl]
    rw [List.append_nil, hresults]
    rw [List.mem_flatten]
    refine ⟨Batch.chunkResultsAt api thr j c, ?_, ?_⟩
    · have := mem_allChunkResults api thr (Batch.createChunks usernames chunkSize) 0 j c hjc
      simpa using this
    · rw [Batch.chunkResultsAt, hthr]
      simp only [if_true]
      exact List.mem_map_of_mem Batch.mkProcessingError hu

/-- C8 witness: a run in which chunk 0's fan-out throws still yields each of
its identifiers, as PROCESSING_ERROR failures. -/
theorem c8_witness :
    1 ≤ 8 ∧
    (Batch.resultsIn (Batch.execute (fun _ _ u => { success := true, username := u })
      (fun j => j == 0) (fun j => false) (fun _ => false) false
      ["a", "b"] 8 1000).1).map FetchResult.username = ["a", "b"] :=
  ⟨by decide,
    (c8_no_exception_escapes (fun _ _ u => { success := true, username := u })
      (fun j => j == 0) (fun _ => false) false ["a", "b"] 8 1000
      (by decide) (fun j i u => rfl)).2.1⟩

/-- C9: cancellation is observed only at chunk boundaries — if the cancelled
flag is first seen set at the loop-top check of chunk `k` (0-based; i.e.
`cancel()` was called after chunk `k - 1` settled and before chunk `k`
started), the run emits exactly the results of chunks `0..k-1`: their settled
results in order, whose usernames are exactly the identifiers of those chunks,
and nothing from any later chunk. -/
theorem c9_cancel_chunk_boundary (api : Nat → Nat → String → FetchResult)
    (thr : Nat → Bool) (ctop cpost : Nat → Bool) (cfin : Bool)
    (usernames : List String) (chunkSize delayMs : Nat) (k : Nat)
    (husers : ∀ j i u, (api j i u).username = u)
    (hk : k < (Batch.createChunks usernames chunkSize).length)
    (hbefore : ∀ j, j < k → ctop j = false) (hat : ctop k = true) :
    Batch.resultsIn (Batch.execute api thr ctop cpost cfin usernames
      chunkSize delayMs).1 =
      (Batch.allChunkResults api thr
        ((Batch.createChunks usernames chunkSize).take k) 0).flatten ∧
    (Batch.resultsIn (Batch.execute api thr ctop cpost cfin usernames
      chunkSize delayMs).1).map FetchResult.username =
      ((Batch.createChunks usernames chunkSize).take k).flatten := by
  have hcut := executeLoop_cut api thr ctop cpost usernames.length
    (Batch.createChunks usernames chunkSize).length delayMs
    (Batch.createChunks usernames chunkSize) k 0 Batch.initialStats
    (by omega)
    (fun j hj => by rw [Nat.zero_add]; exact hbefore j hj)
    (Or.inr (by rw [Nat.zero_add]; exact hat))
  have hres : Batch.resultsIn (Batch.execute api thr ctop cpost cfin usernames
      chunkSize delayMs).1 =
      (Batch.allChunkResults api thr
        ((Batch.createChunks usernames chunkSize).take k) 0).flatten := by
    rw [execute_eq, resultsIn_append, hcut]
    rw [show ∀ p, Batch.resultsIn [Batch.Event.progressEv p] = [] from fun p => rfl]
    rw [List.append_nil]
    exact executeLoop_results api thr (fun j => false) cpost usernames.length
      (Batch.createChunks usernames chunkSize).length delayMs (fun j => rfl)
      ((Batch.createChunks usernames chunkSize).take k) 0 Batch.initialStats
  refine ⟨hres, ?_⟩
  rw [hres]
  exact allChunkResults_flatten_username api thr husers
    ((Batch.createChunks usernames chunkSize).take k) 0

/-- C9 witness: cancelling a 2-chunk run at the top of chunk 1 leaves exactly
chunk 0's identifiers in the result stream. -/
theorem c9_witness :
    (Batch.resultsIn (Batch.execute (fun _ _ u => { success := true, username := u })
      (fun _ => false) (fun j => decide (1 ≤ j)) (fun _ => false) true
      ["a", "b", "c"] 2 1000).1).map FetchResult.username =
      ((Batch.createChunks ["a", "b", "c"] 2).take 1).flatten :=
  (c9_cancel_chunk_boundary (fun _ _ u => { success := true, username := u })
    (fun _ => false) (fun j => decide (1 ≤ j)) (fun _ => false) true
    ["a", "b", "c"] 2 1000 1 (fun j i u => rfl) (by decide)
    (fun j hj => by
      have : j = 0 := by omega
      subst this
      rfl)
    (by decide)).2

lemma executeLoop_chunk_emitted (api : Nat → Nat → String → FetchResult)
    (thr : Nat → Bool) (ctop cpost : Nat → Bool) (total totalChunks delayMs : Nat) :
    ∀ (cs : List (List String)) (i k : Nat) (c : List String) (s : Batch.Stats),
      cs[k]? = some c → (∀ j, j ≤ k → ctop (i + j) = false) →
      ∀ r ∈ Batch.chunkResultsAt api thr (i + k) c,
        Batch.Event.resultEv r ∈
          (Batch.executeLoop api thr ctop cpost total totalChunks delayMs cs i s).1 := by
  intro cs
  induction cs with
  | nil => intro i k c s h hj r hr; simp at h
  | cons c0 rest ih =>
    intro i k c s h hj r hr
    have hc : ctop i = false := by simpa using hj 0 (by omega)
    rw [executeLoop_cons api thr ctop cpost total totalChunks delayMs c0 rest i s hc]
    dsimp only
    cases k with
    | zero =>
      simp only [List.getElem?_cons_zero, Option.some_inj] at h
      subst h
      rw [Nat.add_zero] at hr
      have hmap : Batch.Event.resultEv r ∈
          (Batch.chunkResultsAt api thr i c0).map Batch.Event.resultEv :=
        List.mem_map_of_mem _ hr
      exact List.mem_append_left _
        (List.mem_append_left _ (List.mem_cons_of_mem _ hmap))
    | succ k =>
      simp only [List.getElem?_cons_succ] at h
      have hr2 : r ∈ Batch.chunkResultsAt api thr (i + 1 + k) c := by
        rw [show i + 1 + k = i + (k + 1) from by omega]
        exact hr
      have hmem := ih (i + 1) k c (Batch.chunkStep api thr i c0 s) h
        (fun j hjk => by
          rw [show i + 1 + j = i + (j + 1) from by omega]
          exact hj (j + 1) (by omega)) r hr2
      exact List.mem_append_right _ hmem

/-- C10 counterexample: the claim quantifies over every way `processUsers`
returns or throws, but a call made while a run is already in flight throws
the already-running guard error and leaves `isProcessing` untouched — so
right after that throw `isRunning()` still reports true. -/
theorem c10_counterexample :
    Proc.processUsersCall { isProcessing := true, hasCurrentOperation := true } false =
      (Except.error "Batch processor is already running",
       { isProcessing := true, hasCurrentOperation := true }) ∧
    Proc.isRunning { isProcessing := true, hasCurrentOperation := true } = true :=
  ⟨rfl, rfl⟩

/-- C10 (amended): a `processUsers` call that passes the already-running guard
always exits — normally or by throw — with `isProcessing = false` and
`currentOperation = null` (the `finally` block), whereas a guard-rejected call
throws and leaves the flags of the running operation untouched; `cancel()`
clears `isProcessing` immediately while only setting the operation's
cancelled flag, so the current chunk still runs to completion and its results
are still emitted via `onResult` (the cancelled flag is read only at
chunk-top boundaries). -/
theorem c10_lifecycle_flags :
    (∀ (s : Proc.ProcState) (b : Bool), s.isProcessing = false →
      (Proc.processUsersCall s b).2.isProcessing = false ∧
      (Proc.processUsersCall s b).2.hasCurrentOperation = false) ∧
    (∀ (s : Proc.ProcState) (b : Bool), s.isProcessing = true →
      Proc.processUsersCall s b =
        (Except.error "Batch processor is already running", s)) ∧
    (∀ s : Proc.ProcState, s.hasCurrentOperation = true →
      Proc.isRunning (Proc.cancel s) = false) ∧
    (∀ (api : Nat → Nat → String → FetchResult) (thr : Nat → Bool)
      (ctop cpost : Nat → Bool) (cfin : Bool) (usernames : List String)
      (chunkSize delayMs k : Nat) (c : List String),
      (Batch.createChunks usernames chunkSize)[k]? = some c →
      (∀ j, j ≤ k → ctop j = false) →
      ∀ r ∈ Batch.chunkResultsAt api thr k c,
        Batch.Event.resultEv r ∈
          (Batch.execute api thr ctop cpost cfin usernames chunkSize delayMs).1) := by
  refine ⟨?_, ?_, ?_, ?_⟩
  · intro s b hs
    simp [Proc.processUsersCall, hs]
  · intro s b hs
    simp [Proc.processUsersCall, hs]
  · intro s hs
    simp [Proc.cancel, Proc.isRunning, hs]
  · intro api thr ctop cpost cfin usernames chunkSize delayMs k c hkc hj r hr
    rw [execute_eq]
    refine List.mem_append_left _ ?_
    have := executeLoop_chunk_emitted api thr ctop cpost usernames.length
      (Batch.createChunks usernames chunkSize).length delayMs
      (Batch.createChunks usernames chunkSize) 0 k c Batch.initialStats hkc
      (fun j hjk => by rw [Nat.zero_add]; exact hj j hjk) r
      (by rw [Nat.zero_add]; exact hr)
    exact this

/-- C10 witness: a guard-passing call exits with the flags cleared. -/
theorem c10_witness :
    (Proc.processUsersCall { isProcessing := false, hasCurrentOperation := false }
      true).2.isProcessing = false :=
  (c10_lifecycle_flags.1 { isProcessing := false, hasCurrentOperation := false }
    true rfl).1

end GithubBatch
